import Mathlib

/-!
Verification development for the json2ddl schema-inference engine
(`src/json2ddl.py`).  The Python source is embedded shallowly: JSON values
become an inductive type, the per-value classifier and per-column type
inferencer become pure functions over that type, and the recursive table
decomposer becomes a fuelled function returning `Except` (mirroring the
places where the Python can raise).  All container iteration in the source
is over insertion-ordered dicts and stable sorts, which are modelled by
ordered association lists and an explicit stable insertion sort.
-/

set_option maxRecDepth 4000

namespace Json2Ddl

/-- One decoded JSON value as the engine sees it.  `jfloat` carries the
precision and scale that Python derives via `Decimal(str(v))`; the IEEE
float itself is not modelled (no claim in this development observes a
float's numeric value, only the flags and metrics the classifier keeps). -/
inductive JVal where
  | null : JVal
  | jbool : Bool → JVal
  | jint : Int → JVal
  | jfloat : Nat → Nat → JVal
  | jstr : String → JVal
  | jarr : List JVal → JVal
  | jobj : List (String × JVal) → JVal
deriving Repr

/-- A record is an insertion-ordered field map, as a Python dict decoded
from a JSON object.  Keys are unique in every record json.load can
produce; lookups return the first occurrence. -/
abbrev Record := List (String × JVal)

/-- Drop the longest suffix of characters satisfying `p`. -/
def dropRightWhileL (p : Char → Bool) (l : List Char) : List Char :=
  (l.reverse.dropWhile p).reverse

/-- Python `str.strip()` (whitespace trimming; the source only ever strips
ASCII whitespace in the inputs considered here). -/
def pyStrip (s : String) : String :=
  String.mk (dropRightWhileL Char.isWhitespace (s.data.dropWhile Char.isWhitespace))

/-- Python `str.lower()` restricted to ASCII, which is all the source
compares (`true/false/yes/no` keywords and grouping-base sort keys). -/
def pyLower (s : String) : String := String.mk (s.data.map Char.toLower)

/-- Whether the string's last character is `c` (Python `endswith` for a
one-character suffix). -/
def strEndsWithChar (s : String) (c : Char) : Bool :=
  match s.data.getLast? with
  | some x => x == c
  | none => false

/-- Join pieces with a separator. -/
def joinSep (sep : String) : List String → String
  | [] => ""
  | [x] => x
  | x :: xs => x ++ sep ++ joinSep sep xs

/-- Whether the first list leads the second (matches its front). -/
def leadsWith : List Char → List Char → Bool
  | [], _ => true
  | _ :: _, [] => false
  | a :: as, b :: bs => a == b && leadsWith as bs

/-- Whether `needle` occurs as a contiguous sublist of `hay`. -/
def containsSeq (needle : List Char) : List Char → Bool
  | [] => needle.isEmpty
  | c :: rest => leadsWith needle (c :: rest) || containsSeq needle rest

/-- Python `needle in hay` on strings (substring containment). -/
def strContains (hay needle : String) : Bool :=
  containsSeq needle.data hay.data

/-- Accumulator-based splitter behind `pySplitWs`. -/
def splitWsGo : List Char → List Char → List String
  | [], acc => if acc.isEmpty then [] else [String.mk acc.reverse]
  | c :: rest, acc =>
      if c.isWhitespace then
        if acc.isEmpty then splitWsGo rest []
        else String.mk acc.reverse :: splitWsGo rest []
      else splitWsGo rest (c :: acc)

/-- Python `str.split()` with no argument: split on whitespace runs,
dropping empty pieces. -/
def pySplitWs (s : String) : List String := splitWsGo s.data []

/-- `re.fullmatch(r"[+-]?\d+", s)`: optional sign then one or more
digits. -/
def isIntLit (s : String) : Bool :=
  let cs := s.data
  let cs := match cs with
    | c :: rest => if c == '+' || c == '-' then rest else c :: rest
    | [] => []
  !cs.isEmpty && cs.all Char.isDigit

/-- `re.fullmatch(r"[+-]?(?:\d+\.\d*|\.\d+)", s)`: optional sign, one
decimal point, digits elsewhere, and at least one digit on some side. -/
def isDecLit (s : String) : Bool :=
  let cs := s.data
  let cs := match cs with
    | c :: rest => if c == '+' || c == '-' then rest else c :: rest
    | [] => []
  let intPart := cs.takeWhile Char.isDigit
  let rest := cs.drop intPart.length
  match rest with
  | '.' :: frac => frac.all Char.isDigit && (!intPart.isEmpty || !frac.isEmpty)
  | _ => false

/-- The case-insensitive boolean keywords of the classifier. -/
def isBoolWord (s : String) : Bool :=
  let t := pyLower s
  t == "true" || t == "false" || t == "yes" || t == "no"

/-- `re.search(r"\d{1,2}:\d{2}(:\d{2})?", s)`: some position carries a
digit, a colon, then two digits (the one-digit-hour case subsumes the
two-digit case for mere existence). -/
def hasTimePat : List Char → Bool
  | a :: b :: c :: d :: rest =>
      (a.isDigit && b == ':' && c.isDigit && d.isDigit) || hasTimePat (b :: c :: d :: rest)
  | _ => false

/-- Minute-and-optional-second tail of a time of day. -/
def minuteTail : List Char → Bool
  | ':' :: m1 :: m2 :: rest =>
      m1.isDigit && m2.isDigit &&
        (match rest with
         | [] => true
         | ':' :: s1 :: s2 :: [] => s1.isDigit && s2.isDigit
         | _ => false)
  | _ => false

/-- A `H:MM[:SS]` or `HH:MM[:SS]` time of day. -/
def timeOk : List Char → Bool
  | c1 :: c2 :: rest =>
      c1.isDigit && ((c2.isDigit && minuteTail rest) || minuteTail (c2 :: rest))
  | _ => false

/-- Modelled from the spec: the source delegates date recognition to the
external `dateutil` non-fuzzy parser, which is not part of this
repository.  This model accepts ISO `YYYY-MM-DD` dates with an optional
`H:MM[:SS]` time suffix — the only date shapes exercised by the claims —
and rejects everything else, matching dateutil's success/failure verdict
on every string appearing in this development.  The engine only branches
on that verdict. -/
def dateLikeCore (s : String) : Bool :=
  match s.data with
  | a :: b :: c :: d :: e :: f :: g :: h :: i :: j :: rest =>
      a.isDigit && b.isDigit && c.isDigit && d.isDigit && e == '-' &&
      f.isDigit && g.isDigit && h == '-' && i.isDigit && j.isDigit &&
      (match rest with
       | [] => true
       | ' ' :: t => timeOk t
       | _ => false)
  | _ => false

/-- Significant digits and scale of a plain decimal literal, as
`Decimal(s).as_tuple()` reports them: leading zeros are dropped from the
coefficient (a zero value keeps one digit) and the scale is the number of
digits after the point. -/
def decPrecScale (s : String) : Nat × Nat :=
  let cs := s.data
  let cs := match cs with
    | c :: rest => if c == '+' || c == '-' then rest else c :: rest
    | [] => []
  let intPart := cs.takeWhile Char.isDigit
  let frac := (cs.drop intPart.length).drop 1
  let signif := (intPart ++ frac).dropWhile (fun c => c == '0')
  (max 1 signif.length, frac.length)

mutual

/-- Python `repr` on decoded JSON data, used only when the classifier is
handed a non-scalar (list/dict) value and stringifies it.  Floats inside
containers render as a placeholder since their text is not modelled; no
claim here evaluates that case. -/
def pyRepr : JVal → String
  | JVal.null => "None"
  | JVal.jbool b => if b then "True" else "False"
  | JVal.jint n => toString n
  | JVal.jfloat _ _ => "float"
  | JVal.jstr s => "'" ++ s ++ "'"
  | JVal.jarr xs => "[" ++ joinSep ", " (pyReprList xs) ++ "]"
  | JVal.jobj fs => "\x7b" ++ joinSep ", " (pyReprFields fs) ++ "\x7d"

/-- Element renderings of a Python list. -/
def pyReprList : List JVal → List String
  | [] => []
  | x :: xs => pyRepr x :: pyReprList xs

/-- Entry renderings of a Python dict. -/
def pyReprFields : List (String × JVal) → List String
  | [] => []
  | kv :: fs => ("'" ++ kv.fst ++ "': " ++ pyRepr kv.snd) :: pyReprFields fs

end

/-- Python `str` on decoded JSON data (differs from `repr` only at the top
level for strings, which never reach the stringifying fallback). -/
def pyStr : JVal → String
  | JVal.jstr s => s
  | v => pyRepr v

/-- The running aggregate of `infer_sql_type`'s classification loop. -/
structure InferState where
  hasInt : Bool
  hasFloat : Bool
  hasDate : Bool
  hasDatetime : Bool
  hasStr : Bool
  hasBool : Bool
  minLen : Option Nat
  maxLen : Nat
  maxPrec : Nat
  maxScale : Nat
deriving Repr, DecidableEq

/-- All flags clear, as at the top of `infer_sql_type`. -/
def initState : InferState :=
  { hasInt := false, hasFloat := false, hasDate := false, hasDatetime := false,
    hasStr := false, hasBool := false, minLen := none, maxLen := 0,
    maxPrec := 0, maxScale := 0 }

/-- Record a plain-string observation of trimmed length `len`. -/
def noteStr (st : InferState) (len : Nat) : InferState :=
  { st with
      hasStr := true,
      maxLen := max st.maxLen len,
      minLen := some (match st.minLen with | none => len | some m => min m len) }

/-- One iteration of the classification loop of `infer_sql_type`:
native booleans, native ints, native floats, then string patterns in
source order (integer, decimal, boolean keyword, date/datetime, plain
string), and a stringifying fallback for anything else. -/
def inferStep (st : InferState) (v : JVal) : InferState :=
  match v with
  | JVal.jbool _ => { st with hasBool := true }
  | JVal.jint _ => { st with hasInt := true }
  | JVal.jfloat p sc =>
      { st with hasFloat := true, maxPrec := max st.maxPrec p, maxScale := max st.maxScale sc }
  | JVal.jstr s =>
      let t := pyStrip s
      if t.data.isEmpty then st
      else if isIntLit t then { st with hasInt := true }
      else if isDecLit t then
        let ps := decPrecScale t
        { st with
            hasFloat := true,
            maxPrec := max st.maxPrec ps.fst,
            maxScale := max st.maxScale ps.snd }
      else if isBoolWord t then { st with hasBool := true }
      else if dateLikeCore t then
        if hasTimePat t.data then { st with hasDatetime := true }
        else { st with hasDate := true }
      else noteStr st t.length
  | other => noteStr st (pyStr other).length

/-- Bit length of a natural number, fuelled by the number itself (the
bit length never exceeds a positive number, so the fuel is always
sufficient). -/
def bitLenFuel : Nat → Nat → Nat
  | 0, _ => 0
  | Nat.succ fuel, n => if n == 0 then 0 else bitLenFuel fuel (n / 2) + 1

/-- Python `int.bit_length` (bits of the absolute value). -/
def intBitLength (n : Int) : Nat :=
  bitLenFuel n.natAbs n.natAbs

/-- Ceiling division for a positive divisor. -/
def ceilDivInt (a b : Int) : Int := (a + b - 1) / b

/-- The power-of-two rounding of the nerd sizing mode: round `adjusted`
up to a multiple of `2 ^ max(bit_length(adjusted) - 2, 0)`. -/
def blockRound (adjusted : Int) : Int :=
  let e : Int := (intBitLength adjusted : Int) - 1
  let block : Int := ((2 : Int) ^ (max (e - 1) 0).toNat)
  ceilDivInt adjusted block * block

/-- Simple decimal parse modelling Python `float()` on the cushion
argument: optional surrounding whitespace, optional sign, digits with an
optional fractional part.  Exponent and special forms are not modelled;
no claim exercises them (a failed parse only selects the 10% default). -/
def pyFloatParse (s : String) : Option Rat :=
  let cs := (pyStrip s).data
  let (sign, cs) := match cs with
    | c :: rest => if c == '-' then ((-1 : Int), rest)
                   else if c == '+' then (1, rest) else (1, c :: rest)
    | [] => (1, [])
  let intPart := cs.takeWhile Char.isDigit
  let rest := cs.drop intPart.length
  let digitsToNat : List Char → Nat :=
    fun ds => ds.foldl (fun acc c => acc * 10 + (c.toNat - '0'.toNat)) 0
  match rest with
  | [] =>
      if intPart.isEmpty then none
      else some ((sign : Rat) * (digitsToNat intPart : Rat))
  | '.' :: frac =>
      if frac.all Char.isDigit && (!intPart.isEmpty || !frac.isEmpty) then
        some ((sign : Rat) *
          ((digitsToNat intPart : Rat) + (digitsToNat frac : Rat) / ((10 : Rat) ^ frac.length)))
      else none
  | _ => none

/-- Python `int()` on the cushion argument: optional surrounding
whitespace, optional sign, digits. -/
def pyIntParse (s : String) : Option Int :=
  let cs := (pyStrip s).data
  let (sign, cs) := match cs with
    | c :: rest => if c == '-' then ((-1 : Int), rest)
                   else if c == '+' then (1, rest) else (1, c :: rest)
    | [] => (1, [])
  if !cs.isEmpty && cs.all Char.isDigit then
    some (sign * (cs.foldl (fun (acc : Int) (c : Char) =>
      acc * 10 + ((c.toNat : Int) - ('0'.toNat : Int))) 0))
  else none

/-- The VARCHAR length computation at the tail of `infer_sql_type`:
`orig = max(1, maxLen)`; with nerd sizing a cushion is derived from the
cushion argument (percentage, absolute, or 10% fallback), forced to zero
when all observed lengths agree, and the adjusted size is rounded to a
power-of-two block.  Python's binary-float cushion arithmetic is modelled
with exact rationals; no claim observes a case where they differ. -/
def varcharLen (st : InferState) (nerd : Bool) (cushionArg : String) : Int :=
  let orig : Int := (max 1 st.maxLen : Nat)
  if nerd then
    let cushion : Int :=
      if strEndsWithChar cushionArg '%' then
        let pct : Rat :=
          match pyFloatParse (String.mk (dropRightWhileL (fun c => c == '%') cushionArg.data)) with
          | some r => r / 100
          | none => (1 : Rat) / 10
        Rat.ceil ((orig : Rat) * pct)
      else
        match pyIntParse cushionArg with
        | some n => n
        | none => Rat.ceil ((orig : Rat) * ((1 : Rat) / 10))
    let cushion : Int :=
      match st.minLen with
      | some m => if m == st.maxLen then 0 else cushion
      | none => cushion
    blockRound (orig + cushion)
  else orig

/-- The exclusivity resolution and sizing at the tail of
`infer_sql_type`, in source order. -/
def inferResolve (st : InferState) (nerd : Bool) (cushionArg : String) : String :=
  if st.hasDatetime && !(st.hasStr || st.hasFloat || st.hasInt || st.hasDate || st.hasBool) then
    "DATETIME"
  else if st.hasDate && !(st.hasStr || st.hasFloat || st.hasInt || st.hasDatetime || st.hasBool) then
    "DATE"
  else if st.hasBool && !(st.hasStr || st.hasFloat || st.hasInt || st.hasDate || st.hasDatetime) then
    "BOOLEAN"
  else if st.hasFloat then
    "DECIMAL(" ++ toString (max 1 st.maxPrec) ++ "," ++ toString st.maxScale ++ ")"
  else if st.hasInt && !(st.hasFloat || st.hasStr || st.hasDate || st.hasDatetime || st.hasBool) then
    "INTEGER"
  else
    "VARCHAR(" ++ toString (varcharLen st nerd cushionArg) ++ ")"

/-- `infer_sql_type(values, nerd, cushion_arg)` from the source: fold the
classifier over the sampled values, then resolve one SQL type string. -/
def infer_sql_type (values : List JVal) (nerd : Bool) (cushionArg : String) : String :=
  inferResolve (values.foldl inferStep initState) nerd cushionArg

/-- Maximal alphanumeric runs of a string: the non-empty pieces of
`re.split(r"[^0-9a-zA-Z]+", s)`.  Fuelled by the string length, which is
always enough since every step consumes at least one character. -/
def splitAlnumRuns : Nat → List Char → List (List Char)
  | 0, _ => []
  | _, [] => []
  | Nat.succ fuel, c :: rest =>
    if c.isAlphanum then
      let run := rest.takeWhile Char.isAlphanum
      (c :: run) :: splitAlnumRuns fuel (rest.drop run.length)
    else splitAlnumRuns fuel rest

/-- One word's tokens under the camel/acronym pattern
`[A-Z]{2,}(?=[A-Z][a-z]|[0-9]|$)|[A-Z]?[a-z]+|[A-Z]+|[0-9]+`, scanned
left to right with the regex's ordered alternation and the acronym
lookahead (including its one-step backtrack).  Fuelled by the word
length, always sufficient. -/
def tokenizeRun : Nat → List Char → List (List Char)
  | 0, _ => []
  | _, [] => []
  | Nat.succ fuel, c :: rest =>
    if c.isUpper then
      let uppers := (c :: rest).takeWhile Char.isUpper
      let m := uppers.length
      let after := (c :: rest).drop m
      if m ≥ 2 && (after.isEmpty || (after.head?.map Char.isDigit).getD false) then
        uppers :: tokenizeRun fuel after
      else if m ≥ 3 && ((after.head?.map Char.isLower).getD false) then
        uppers.take (m - 1) :: tokenizeRun fuel ((c :: rest).drop (m - 1))
      else
        match rest with
        | d :: rest2 =>
          if d.isLower then
            let lows := rest2.takeWhile Char.isLower
            (c :: d :: lows) :: tokenizeRun fuel (rest2.drop lows.length)
          else
            uppers :: tokenizeRun fuel after
        | [] => [[c]]
    else if c.isLower then
      let lows := (c :: rest).takeWhile Char.isLower
      lows :: tokenizeRun fuel ((c :: rest).drop lows.length)
    else if c.isDigit then
      let digs := (c :: rest).takeWhile Char.isDigit
      digs :: tokenizeRun fuel ((c :: rest).drop digs.length)
    else
      tokenizeRun fuel rest

/-- `cap_part` from the source: two-letter tokens are upper-cased whole,
others get a capital followed by the lower-cased remainder. -/
def capPart (p : String) : String :=
  if p.length == 2 then String.mk (p.data.map Char.toUpper)
  else match p.data with
    | [] => ""
    | c :: rest => String.mk (c.toUpper :: rest.map Char.toLower)

/-- `to_pascal` from the source: split into alphanumeric words, tokenize
each with the camel/acronym pattern, capitalize every token, and join. -/
def to_pascal (s : String) : String :=
  let runs := splitAlnumRuns (s.length + 1) s.data
  let tokens := runs.foldl (fun acc w => acc ++ tokenizeRun (w.length + 1) w) []
  String.join (tokens.map (fun t => capPart (String.mk t)))

/-- The exceptions this embedding can surface, mirroring the Python
exceptions that escape `process_table`. -/
inductive PyErr where
  | attributeError
  | typeError
  | recursionError
deriving Repr, DecidableEq

/-- Whether a column definition was emitted as the primary key, the
inherited foreign key, or an ordinary column. -/
inductive ColKind where
  | pk
  | fk
  | plain
deriving Repr, DecidableEq

/-- One emitted column definition.  `srcName` is the source column name
before renaming/pascal-casing (the primary-key source name for `pk`, the
inherited key name for `fk`); `name` is the rendered, quote-escaped
name.  The Python stores only the rendered string; `renderDef` recovers
it exactly. -/
structure ColDef where
  srcName : String
  name : String
  sqlType : String
  kind : ColKind
  notNull : Bool
deriving Repr, DecidableEq

/-- The exact definition string the Python builds for a column. -/
def renderDef (d : ColDef) : String :=
  "    \"" ++ d.name ++ "\" " ++ d.sqlType ++
    (match d.kind with
     | ColKind.pk => " PRIMARY KEY"
     | ColKind.fk => " NOT NULL"
     | ColKind.plain => if d.notNull then " NOT NULL" else "")

/-- `out.replace('"', '""')` from the source. -/
def quoteEscape (s : String) : String :=
  String.mk (s.data.foldr (fun c acc => if c == '"' then '"' :: '"' :: acc else c :: acc) [])

/-- Append values to a key's bucket in an insertion-ordered multimap,
as `defaultdict(list).extend`/`append` behaves. -/
def adjoin {α : Type} (m : List (String × List α)) (k : String) (vs : List α) :
    List (String × List α) :=
  match m with
  | [] => [(k, vs)]
  | kv :: rest => if kv.fst == k then (kv.fst, kv.snd ++ vs) :: rest else kv :: adjoin rest k vs

/-- First-occurrence lookup in an ordered association list. -/
def lookupVals {α : Type} (m : List (String × α)) (k : String) : Option α :=
  match m with
  | [] => none
  | kv :: rest => if kv.fst == k then some kv.snd else lookupVals rest k

/-- Python `row.get(key)` on a record. -/
def pyGet (r : Record) (k : String) : Option JVal := lookupVals r k

/-- Python `row[key] = v` on a record: replace in place if present,
append otherwise. -/
def pySet (r : Record) (k : String) (v : JVal) : Record :=
  match r with
  | [] => [(k, v)]
  | kv :: rest => if kv.fst == k then (k, v) :: rest else kv :: pySet rest k v

/-- Whether a decoded value is a Python dict. -/
def isObj : JVal → Bool
  | JVal.jobj _ => true
  | _ => false

/-- The field list of a dict value (only applied under an `isObj` guard). -/
def asRecord : JVal → Record
  | JVal.jobj fs => fs
  | _ => []

/-- The three buckets `process_table` sorts each field into. -/
structure Partition where
  cols : List (String × List JVal)
  nestedObjs : List (String × List Record)
  nestedPrims : List (String × List JVal)
deriving Repr

/-- The empty partition. -/
def emptyPartition : Partition :=
  { cols := [], nestedObjs := [], nestedPrims := [] }

/-- Route one field of one record, in source order: strings are stripped
and dropped when blank, `None` is dropped, non-empty all-dict arrays go
to the nested-object bucket, non-empty no-dict arrays to the
nested-primitive bucket, and everything else (including empty or mixed
arrays and plain dicts) becomes a scalar column value. -/
def routeField (p : Partition) (key : String) (value : JVal) : Partition :=
  match value with
  | JVal.jstr s =>
      let t := pyStrip s
      if t.data.isEmpty then p
      else { p with cols := adjoin p.cols key [JVal.jstr t] }
  | JVal.null => p
  | JVal.jarr xs =>
      if !xs.isEmpty && xs.all isObj then
        { p with nestedObjs := adjoin p.nestedObjs key (xs.map asRecord) }
      else if !xs.isEmpty && xs.all (fun x => !isObj x) then
        { p with nestedPrims := adjoin p.nestedPrims key xs }
      else { p with cols := adjoin p.cols key [value] }
  | v => { p with cols := adjoin p.cols key [v] }

/-- The partitioning loop of `process_table` over the whole batch. -/
def partitionRecords (records : List Record) : Partition :=
  records.foldl (fun p r => r.foldl (fun p kv => routeField p kv.fst kv.snd) p) emptyPartition

/-- The recognized configuration of the engine (everything `process_table`
takes besides the batch, the table name, the inherited key and the
accumulator). -/
structure Config where
  pascal : Bool
  nerd : Bool
  renameMap : Option (List (String × String))
  sort : Bool
  pkSource : Option String
  cushionArg : String
deriving Repr, DecidableEq

/-- All options at their command-line defaults (no rename map:
`main` passes `rename_map or None`, which is `None` when no `--map` was
given). -/
def defaultCfg : Config :=
  { pascal := false, nerd := false, renameMap := none, sort := false,
    pkSource := none, cushionArg := "10%" }

/-- `pk_col = pk_source if pk_source else "ID"` (an empty string is falsy
in Python and also falls back to `ID`). -/
def pkColOf (cfg : Config) : String :=
  match cfg.pkSource with
  | none => "ID"
  | some s => if s.isEmpty then "ID" else s

/-- The guarded rename used for primary-key and plain columns:
`out if rename_map is None else rename_map.get(out, out)`. -/
def renameGet (rm : Option (List (String × String))) (k : String) : String :=
  match rm with
  | none => k
  | some m => (m.lookup k).getD k

/-- `re.sub(r"\d+$", "", c)`: a column's grouping base. -/
def dropTrailingDigits (s : String) : String :=
  String.mk (dropRightWhileL Char.isDigit s.data)

/-- Insert `x` after every already-placed element `y` with `le y x`.
Folding this over a list is the unique stable sort for a total `le`,
matching Python's `sorted`. -/
def insertLe {α : Type} (le : α → α → Bool) (x : α) : List α → List α
  | [] => [x]
  | y :: ys => if le y x then y :: insertLe le x ys else x :: y :: ys

/-- Stable sort by a boolean `le`, as Python's `sorted`. -/
def stableSortLe {α : Type} (le : α → α → Bool) (l : List α) : List α :=
  l.foldl (fun acc x => insertLe le x acc) []

/-- Code-point lexicographic strict comparison, as Python compares
strings. -/
def charListLt : List Char → List Char → Bool
  | [], [] => false
  | [], _ :: _ => true
  | _ :: _, [] => false
  | a :: as, b :: bs =>
      if a.toNat < b.toNat then true
      else if a.toNat == b.toNat then charListLt as bs
      else false

/-- Python `a < b` on strings. -/
def strLt (a b : String) : Bool := charListLt a.data b.data

/-- Python `a <= b` on strings. -/
def strLe (a b : String) : Bool := strLt a b || a == b

/-- Python `sorted` on strings (code-point lexicographic). -/
def sortStrings (l : List String) : List String :=
  stableSortLe strLe l

/-- The scalar-column buckets of the batch. -/
def colsOf (records : List Record) : List (String × List JVal) :=
  (partitionRecords records).cols

/-- `null_status[c] = len(vals) < total_rows`. -/
def nullStatusOf (records : List Record) (c : String) : Bool :=
  ((lookupVals (colsOf records) c).getD []).length < records.length

/-- The grouping-base multimap, keyed in first-occurrence order. -/
def groupsOf (records : List Record) : List (String × List String) :=
  (colsOf records).foldl (fun g ckv => adjoin g (dropTrailingDigits ckv.fst) [ckv.fst]) []

/-- Whether some column of a base is non-nullable. -/
def groupHasNonNull (records : List Record) (b : String) : Bool :=
  ((lookupVals (groupsOf records) b).getD []).any (fun c => !nullStatusOf records c)

/-- `sorted(groups.keys(), key=lambda b: (not group_has_non_null(b), b.lower()))`. -/
def orderedBasesOf (records : List Record) : List String :=
  stableSortLe
    (fun a b =>
      (groupHasNonNull records a && !groupHasNonNull records b) ||
      ((groupHasNonNull records a == groupHasNonNull records b) &&
        strLe (pyLower a) (pyLower b)))
    ((groupsOf records).map Prod.fst)

/-- The primary-key portion of the definition list (empty or a single
`PRIMARY KEY` definition, when the primary-key source column was
sampled). -/
def pkDefsOf (records : List Record) (cfg : Config) : List ColDef :=
  let pkCol := pkColOf cfg
  match lookupVals (colsOf records) pkCol with
  | some vals =>
      let sql := infer_sql_type vals cfg.nerd cfg.cushionArg
      let out := renameGet cfg.renameMap pkCol
      let out := if cfg.pascal then to_pascal out else out
      [{ srcName := pkCol, name := quoteEscape out, sqlType := sql,
         kind := ColKind.pk, notNull := true }]
  | none => []

/-- The foreign-key portion of the definition list.  Unlike the guarded
primary-key branch, the source calls `rename_map.get` unconditionally
here, so a `None` rename map raises `AttributeError`. -/
def fkDefsOf (parentFk : Option (String × String)) (cfg : Config) :
    Except PyErr (List ColDef) :=
  match parentFk with
  | none => Except.ok []
  | some fk =>
      match cfg.renameMap with
      | none => Except.error PyErr.attributeError
      | some m =>
          let out := (m.lookup fk.fst).getD fk.fst
          let out := if cfg.pascal then to_pascal out else out
          Except.ok [{ srcName := fk.fst, name := quoteEscape out, sqlType := fk.snd,
                       kind := ColKind.fk, notNull := true }]

/-- `c == pk_col or (parent_fk and c == parent_fk[0])`. -/
def isSkipped (cfg : Config) (parentFk : Option (String × String)) (c : String) : Bool :=
  c == pkColOf cfg ||
    (match parentFk with
     | some fk => c == fk.fst
     | none => false)

/-- One ordinary column's definition. -/
def mkPlainDef (records : List Record) (cfg : Config) (c : String) : ColDef :=
  let vals := (lookupVals (colsOf records) c).getD []
  let sql := infer_sql_type vals cfg.nerd cfg.cushionArg
  let out := renameGet cfg.renameMap c
  let out := if cfg.pascal then to_pascal out else out
  { srcName := c, name := quoteEscape out, sqlType := sql,
    kind := ColKind.plain, notNull := !nullStatusOf records c }

/-- `other_defs`: grouped-and-sorted ordinary column definitions,
skipping the primary-key and inherited-key names. -/
def otherDefsOf (records : List Record) (parentFk : Option (String × String))
    (cfg : Config) : List ColDef :=
  (orderedBasesOf records).foldl
    (fun acc base =>
      acc ++ ((sortStrings ((lookupVals (groupsOf records) base).getD [])).filterMap
        (fun c =>
          if isSkipped cfg parentFk c then none
          else some (mkPlainDef records cfg c))))
    []

/-- The ordinary definitions in final order: `other_defs` as-is under the
sort flag, otherwise re-selected in field-encounter order by the regex
search `re.search(rf"\"{c}\"", d)` over the rendered strings (modelled as
literal substring search, exact for names without regex
metacharacters — all names in this development). -/
def selectedOthersOf (records : List Record) (parentFk : Option (String × String))
    (cfg : Config) : List ColDef :=
  if cfg.sort then otherDefsOf records parentFk cfg
  else
    ((colsOf records).map Prod.fst).filterMap (fun c =>
      let c := if cfg.pascal then to_pascal c else c
      if isSkipped cfg parentFk c then none
      else (otherDefsOf records parentFk cfg).find?
        (fun d => strContains (renderDef d) ("\"" ++ c ++ "\"")))

/-- The full definition list of one table, in source order: primary key,
then inherited foreign key (whose branch can raise), then the ordinary
columns. -/
def buildColDefs (records : List Record) (parentFk : Option (String × String))
    (cfg : Config) : Except PyErr (List ColDef) :=
  match fkDefsOf parentFk cfg with
  | Except.error e => Except.error e
  | Except.ok fkDefs =>
      Except.ok (pkDefsOf records cfg ++ fkDefs ++ selectedOthersOf records parentFk cfg)

/-- `_get_primary_key_type` from the source: scan the rendered definition
strings for one containing the literal lowercase `"id"` and
`PRIMARY KEY`, and return its third whitespace token (which for such a
definition is the word `PRIMARY`, not the type); fall back to `INTEGER`.
Every definition matching the guard has at least three tokens, so the
out-of-range default is never taken. -/
def get_primary_key_type (defs : List ColDef) : String :=
  match defs.find? (fun d =>
      strContains (renderDef d) "\"id\"" && strContains (renderDef d) "PRIMARY KEY") with
  | some d => ((pySplitWs (renderDef d)).get? 2).getD ""
  | none => "INTEGER"

/-- `next((r.get("ID") for r in records if isinstance(r, dict)), None)`:
the `ID` value of the first record (records are mappings in this model),
`None` when the batch is empty or the first record lacks `ID`. -/
def firstParentId (records : List Record) : JVal :=
  match records with
  | [] => JVal.null
  | r :: _ => (pyGet r "ID").getD JVal.null

/-- The foreign-key injection `child[fk_col] = v` applied to every child
of a nested-object bucket (modelled functionally; the Python mutates the
child dicts in place). -/
def injectFk (children : List Record) (fkCol : String) (v : JVal) : List Record :=
  children.map (fun c => pySet c fkCol v)

/-- Python iteration over `row.get(field, [])` in the primitive-array
loop: lists yield elements, strings yield characters, dicts yield keys,
anything else raises `TypeError`. -/
def pyIter : JVal → Except PyErr (List JVal)
  | JVal.jarr xs => Except.ok xs
  | JVal.jstr s => Except.ok (s.data.map (fun c => JVal.jstr (String.singleton c)))
  | JVal.jobj fs => Except.ok (fs.map (fun kv => JVal.jstr kv.fst))
  | _ => Except.error PyErr.typeError

/-- The synthesized child records of one nested-primitive field: one
record per element, carrying the foreign key taken from that element's
own source row, then a single `value` field. -/
def makePrimRecords (records : List Record) (field fkCol : String) :
    Except PyErr (List Record) :=
  match records with
  | [] => Except.ok []
  | r :: rs =>
    match pyIter ((pyGet r field).getD (JVal.jarr [])) with
    | Except.error e => Except.error e
    | Except.ok elems =>
      match makePrimRecords rs field fkCol with
      | Except.error e => Except.error e
      | Except.ok rest =>
          Except.ok
            (elems.map (fun v => [(fkCol, (pyGet r "ID").getD JVal.null), ("value", v)]) ++ rest)

/-- The shared ordered accumulator of table name to definition list. -/
abbrev Schemas := List (String × List ColDef)

/-- `schemas[table_name] = col_defs` on an `OrderedDict`: update in place
keeping position, else append. -/
def insertOD (m : Schemas) (k : String) (v : List ColDef) : Schemas :=
  match m with
  | [] => [(k, v)]
  | kv :: rest => if kv.fst == k then (kv.fst, v) :: rest else kv :: insertOD rest k v

/-- `process_table` from the source: build this table's definitions
(which can raise), record them pre-order, then recurse into the
nested-object buckets and then the nested-primitive buckets, threading
the accumulator and propagating the first raised exception exactly as
the Python loops do.  The fuel models Python's call-stack limit;
exhaustion is `RecursionError`, and every claim evaluates with ample
fuel. -/
def process_table (fuel : Nat) (records : List Record) (tableName : String)
    (parentFk : Option (String × String)) (cfg : Config) (schemas : Schemas) :
    Except PyErr Schemas :=
  match fuel with
  | 0 => Except.error PyErr.recursionError
  | Nat.succ fuel =>
    match buildColDefs records parentFk cfg with
    | Except.error e => Except.error e
    | Except.ok colDefs =>
      let schemas1 := insertOD schemas tableName colDefs
      let part := partitionRecords records
      let fkType := get_primary_key_type colDefs
      let fkCol := tableName ++ "_id"
      let afterObjs :=
        part.nestedObjs.foldl
          (fun acc b =>
            match acc with
            | Except.error e => Except.error e
            | Except.ok sch =>
                process_table fuel (injectFk b.snd fkCol (firstParentId records))
                  (tableName ++ "_" ++ b.fst) (some (fkCol, fkType)) cfg sch)
          (Except.ok schemas1)
      part.nestedPrims.foldl
        (fun acc b =>
          match acc with
          | Except.error e => Except.error e
          | Except.ok sch =>
              match makePrimRecords records b.fst fkCol with
              | Except.error e => Except.error e
              | Except.ok primRecords =>
                  process_table fuel primRecords (tableName ++ "_" ++ b.fst)
                    (some (fkCol, fkType)) cfg sch)
        afterObjs

/-- `render_ddl` from the source: one `CREATE TABLE` statement per table
in accumulator order, statements separated by a blank line. -/
def render_ddl (schemas : Schemas) : String :=
  joinSep "\n\n"
    (schemas.map (fun ts =>
      "CREATE TABLE " ++ ts.fst ++ " (\n" ++
        joinSep ",\n" (ts.snd.map renderDef) ++ "\n);"))

/-- The engine pipeline as `main` drives it: decompose from an empty
accumulator with no inherited key, then render. -/
def runPipeline (fuel : Nat) (records : List Record) (tableName : String)
    (cfg : Config) : Except PyErr String :=
  match process_table fuel records tableName none cfg [] with
  | Except.error e => Except.error e
  | Except.ok schemas => Except.ok (render_ddl schemas)

/-- A value counted as integer-like by the classifier: a native
(non-boolean) integer, or a string whose stripped text matches the
`[+-]?\d+` pattern. -/
def intLike (v : JVal) : Bool :=
  match v with
  | JVal.jint _ => true
  | JVal.jstr s => isIntLit (pyStrip s)
  | _ => false

/-- A string value that falls through every specific pattern of the
classifier to the plain-string case: non-blank, not integer-like, not
decimal-like, not a boolean keyword, not date-parseable. -/
def plainStrVal (v : JVal) : Bool :=
  match v with
  | JVal.jstr s =>
      let t := pyStrip s
      !t.data.isEmpty && !isIntLit t && !isDecLit t && !isBoolWord t && !dateLikeCore t
  | _ => false

/-- The trimmed length of a string value (zero for non-strings). -/
def trimLenOf (v : JVal) : Nat :=
  match v with
  | JVal.jstr s => (pyStrip s).length
  | _ => 0

/-- A field occurrence the partitioner silently drops: `None`, or an
empty/whitespace-only string. -/
def nullOrBlank : JVal → Bool
  | JVal.null => true
  | JVal.jstr s => (pyStrip s).data.isEmpty
  | _ => false

/-- Every occurrence of field `f` in the batch is `None` or blank (fields
absent from a record impose nothing). -/
def allNullOrBlank (records : List Record) (f : String) : Bool :=
  records.all (fun r => r.all (fun kv => kv.fst != f || nullOrBlank kv.snd))

/-- Whether any record of the batch carries field `f` at all. -/
def fieldAppears (records : List Record) (f : String) : Bool :=
  records.any (fun r => r.any (fun kv => kv.fst == f))

/-- The batch of scenario 5 of the spec:
`[{"ID":1,"orders":[{"sku":"A"},{"sku":"B"}]}]`. -/
def c1Records : List Record :=
  [[("ID", JVal.jint 1),
    ("orders", JVal.jarr [JVal.jobj [("sku", JVal.jstr "A")],
                          JVal.jobj [("sku", JVal.jstr "B")]])]]

/-- A batch whose primary-key column infers to `VARCHAR(3)`:
`[{"ID":"abc","orders":[{"sku":"A"}]}]`. -/
def c2Records : List Record :=
  [[("ID", JVal.jstr "abc"),
    ("orders", JVal.jarr [JVal.jobj [("sku", JVal.jstr "A")]])]]

/-- Default options except that a (contentless) rename map is present, so
the unguarded `rename_map.get` in the foreign-key branch does not raise
and the recursion into child tables can be observed. -/
def emptyMapCfg : Config :=
  { pascal := false, nerd := false, renameMap := some [], sort := false,
    pkSource := none, cushionArg := "10%" }

/-- The column sample of scenario 4 of the spec: one date-classified and
one datetime-classified string. -/
def c3Values : List JVal :=
  [JVal.jstr "2024-01-05", JVal.jstr "2024-02-01 13:30"]

/-- The batch of scenario 1 of the spec:
`[{"ID":1,"Name":"Alice","Age":30}]`. -/
def c5Records : List Record :=
  [[("ID", JVal.jint 1), ("Name", JVal.jstr "Alice"), ("Age", JVal.jint 30)]]

/-- The DDL the engine actually produces for `c5Records` at default
options: after the primary key, columns follow field-encounter order
(`Name` before `Age`). -/
def c5Actual : String :=
  "CREATE TABLE users (\n    \"ID\" INTEGER PRIMARY KEY,\n    \"Name\" VARCHAR(5) NOT NULL,\n    \"Age\" INTEGER NOT NULL\n);"

/-- The DDL claimed for `c5Records` at default options (`Age` before
`Name`), which is what the sort-flag ordering yields, not the default. -/
def c5Claimed : String :=
  "CREATE TABLE users (\n    \"ID\" INTEGER PRIMARY KEY,\n    \"Age\" INTEGER NOT NULL,\n    \"Name\" VARCHAR(5) NOT NULL\n);"

/-- A recursion-target batch in which every occurrence of the inherited
foreign-key field `users_id` is `None` (as the injection produces when no
parent record carries `ID`). -/
def c10Records : List Record :=
  [[("sku", JVal.jstr "A"), ("users_id", JVal.null)]]

/-- The inherited foreign-key definition the recursion target emits even
though every `users_id` occurrence in its batch is `None`. -/
def c10FkDef : ColDef :=
  { srcName := "users_id", name := "users_id", sqlType := "INTEGER",
    kind := ColKind.fk, notNull := true }

/-- The `sku` column definition of the `c10Records` table. -/
def c10SkuDef : ColDef :=
  { srcName := "sku", name := "sku", sqlType := "VARCHAR(1)",
    kind := ColKind.plain, notNull := true }

/-- The aggregate state after classifying one or more plain strings of
one shared trimmed length `L` (and nothing else). -/
def strOnlyState (L : Nat) : InferState :=
  { hasInt := false, hasFloat := false, hasDate := false, hasDatetime := false,
    hasStr := true, hasBool := false, minLen := some L, maxLen := L,
    maxPrec := 0, maxScale := 0 }

/-- The elements one source row contributes to a nested-primitive child
batch: the successful iteration of its field value (empty when the
iteration would raise, a case a successful `makePrimRecords` run never
contains). -/
def rowPrimElems (r : Record) (field : String) : List JVal :=
  match pyIter ((pyGet r field).getD (JVal.jarr [])) with
  | Except.ok elems => elems
  | Except.error _ => []

/-- Follows the spec's words for nested-primitive decomposition: in
source-row order, each row synthesizes one child record per element of
its own field, carrying the foreign key taken from that row's own `ID`
and a single `value` field.  This is the comparison list for the
per-row foreign-key propagation statement about `makePrimRecords`. -/
def primRecordsSpec : List Record → String → String → List Record
  | [], _, _ => []
  | r :: rs, field, fkCol =>
      (rowPrimElems r field).map
        (fun v => [(fkCol, (pyGet r "ID").getD JVal.null), ("value", v)]) ++
      primRecordsSpec rs field fkCol

/-- A parent batch with a primary key and a nested primitive array, used
to instantiate the foreign-key propagation claim. -/
def c6Records : List Record :=
  [[("ID", JVal.jint 1), ("tags", JVal.jarr [JVal.jint 9])]]

/-- The definition list `buildColDefs` produces for `c5Records` with an
inherited foreign key and a present rename map. -/
def c8WitnessDefs : List ColDef :=
  [{ srcName := "ID", name := "ID", sqlType := "INTEGER", kind := ColKind.pk, notNull := true },
   { srcName := "p_id", name := "p_id", sqlType := "INTEGER", kind := ColKind.fk, notNull := true },
   { srcName := "Name", name := "Name", sqlType := "VARCHAR(5)", kind := ColKind.plain, notNull := true },
   { srcName := "Age", name := "Age", sqlType := "INTEGER", kind := ColKind.plain, notNull := true }]

/-- The one definition produced for a batch whose `x` field is `Null`
everywhere. -/
def c10WitnessDef : ColDef :=
  { srcName := "y", name := "y", sqlType := "INTEGER",
    kind := ColKind.plain, notNull := true }

end Json2Ddl

namespace Json2Ddl

/-- C1: the claim states that `process_table` on
`[{"ID":1,"orders":[{"sku":"A"},{"sku":"B"}]}]` with table `users` and
all options at their defaults completes without raising and produces the
`users` and `users_orders` tables.  In fact the foreign-key branch calls
`rename_map.get` without the `None` guard the primary-key branch has, so
with the default `rename_map=None` the recursion into `users_orders`
raises `AttributeError` and nothing is returned. -/
theorem c1_nested_batch_raises_at_defaults :
    runPipeline 5 c1Records "users" defaultCfg = Except.error PyErr.attributeError := rfl

/-- C2: the claim states that a child table's foreign-key type equals the
parent's primary-key type (or `INTEGER` without a primary key).  On
`[{"ID":"abc","orders":[{"sku":"A"}]}]` the parent primary key infers to
`VARCHAR(3)` yet the child's `users_id` is declared `INTEGER`:
`_get_primary_key_type` looks for the literal lowercase `"id"` so it
never matches the `"ID"` definition; and even when it does match (a
lowercase `id` column), `d.split()[2]` is the word `PRIMARY`, not the
type. -/
theorem c2_child_fk_type_ignores_parent_pk_type :
    runPipeline 5 c2Records "users" emptyMapCfg =
      Except.ok ("CREATE TABLE users (\n    \"ID\" VARCHAR(3) PRIMARY KEY\n);\n\nCREATE TABLE users_orders (\n    \"users_id\" INTEGER NOT NULL,\n    \"sku\" VARCHAR(1) NOT NULL\n);") ∧
    get_primary_key_type
      [{ srcName := "id", name := "id", sqlType := "VARCHAR(3)",
         kind := ColKind.pk, notNull := true }] = "PRIMARY" :=
  ⟨rfl, rfl⟩

/-- C3 counterexample: on `["2024-01-05","2024-02-01 13:30"]` the claim
expects `VARCHAR(16)` (the maximum string length), but date- and
datetime-classified values record no length, so the fallback sizes from
`max(1, maxLen=0)` and yields `VARCHAR(1)`. -/
theorem c3_counterexample :
    infer_sql_type c3Values false "10%" = "VARCHAR(1)" ∧
    infer_sql_type c3Values false "10%" ≠ "VARCHAR(16)" :=
  ⟨rfl, by decide⟩

/-- C3 as amended: on the mixed date/datetime sample the exclusivity
rules both fail and the fallback returns `VARCHAR(1)`, because values
classified as dates or datetimes contribute nothing to the recorded
string lengths. -/
theorem c3_mixed_date_datetime_gives_varchar_one :
    infer_sql_type c3Values false "10%" = "VARCHAR(1)" := rfl

/-- C4 counterexample: a column of strings all of trimmed length 5 under
nerd sizing yields `VARCHAR(6)`, not `VARCHAR(5)`: the cushion is indeed
forced to 0, but the power-of-two block rounding still applies
(5 rounds up to 6 with block size 2). -/
theorem c4_counterexample :
    infer_sql_type [JVal.jstr "zzzzz"] true "10%" = "VARCHAR(6)" ∧
    infer_sql_type [JVal.jstr "zzzzz"] true "10%" ≠ "VARCHAR(5)" :=
  ⟨rfl, by decide⟩

/-- C5 counterexample: on `[{"ID":1,"Name":"Alice","Age":30}]` at default
options the engine emits `ID, Name, Age` (field-encounter order after
the primary key), not the claimed `ID, Age, Name` (which is what the
grouped sort-flag ordering produces). -/
theorem c5_counterexample :
    runPipeline 3 c5Records "users" defaultCfg = Except.ok c5Actual ∧
    c5Actual ≠ c5Claimed :=
  ⟨rfl, by decide⟩

/-- C5 as amended: at default options the produced DDL is exactly
`CREATE TABLE users` with `"ID" INTEGER PRIMARY KEY`, then
`"Name" VARCHAR(5) NOT NULL`, then `"Age" INTEGER NOT NULL`, preserving
field-encounter order for the non-key columns. -/
theorem c5_default_order_is_encounter_order :
    runPipeline 3 c5Records "users" defaultCfg = Except.ok c5Actual := rfl

/-- C9: the whole pipeline is a pure function of the batch, the table
name and the configuration — dict iteration and sorting in the source
are insertion-ordered and stable, which the embedding models with
deterministic folds — so two runs on the same input and configuration
produce identical results (byte-identical DDL on success). -/
theorem c9_deterministic (fuel : Nat) (records : List Record) (tableName : String)
    (cfg : Config) :
    runPipeline fuel records tableName cfg = runPipeline fuel records tableName cfg := rfl

/-- C10 counterexample: the claim says a field whose every occurrence is
Null or blank gets no column definition at all.  In a recursion target
whose inherited foreign-key field `users_id` is `None` in every record
(which happens when no parent record carries `ID`), the table still
contains a `users_id` definition: the inherited foreign-key definition
is emitted unconditionally. -/
theorem c10_counterexample :
    allNullOrBlank c10Records "users_id" = true ∧
    fieldAppears c10Records "users_id" = true ∧
    process_table 3 c10Records "users_orders" (some ("users_id", "INTEGER")) emptyMapCfg [] =
      Except.ok [("users_orders", [c10FkDef, c10SkuDef])] ∧
    c10FkDef.name = "users_id" :=
  ⟨rfl, rfl, rfl, rfl⟩

end Json2Ddl

namespace Json2Ddl

theorem isIntLit_nonempty (t : String) (h : isIntLit t = true) : t.data.isEmpty = false := by
  cases hd : t.data with
  | nil => simp [isIntLit, hd] at h
  | cons c cs => simp [hd]

theorem inferStep_intLike (st : InferState) (v : JVal) (h : intLike v = true) :
    inferStep st v = { st with hasInt := true } := by
  cases v with
  | jint n => rfl
  | jstr s =>
      simp only [intLike] at h
      have hne := isIntLit_nonempty _ h
      simp [inferStep, hne, h]
  | null => simp [intLike] at h
  | jbool b => simp [intLike] at h
  | jfloat p sc => simp [intLike] at h
  | jarr xs => simp [intLike] at h
  | jobj fs => simp [intLike] at h

theorem foldl_intLike (vs : List JVal) (hall : ∀ v ∈ vs, intLike v = true) :
    vs.foldl inferStep { initState with hasInt := true } =
      { initState with hasInt := true } := by
  induction vs with
  | nil => rfl
  | cons v vs ih =>
      rw [List.foldl_cons, inferStep_intLike _ _ (hall v (List.mem_cons_self v vs))]
      exact ih (fun w hw => hall w (List.mem_cons_of_mem v hw))

/-- C7: for every non-empty column whose sampled values are all
integer-like — native (non-boolean) integers or strings whose stripped
text is an optionally-signed digit run — `infer_sql_type` returns
`INTEGER`, for every sizing configuration. -/
theorem c7_int_like_integer (values : List JVal) (nerd : Bool) (cushionArg : String)
    (hne : values ≠ []) (hall : ∀ v ∈ values, intLike v = true) :
    infer_sql_type values nerd cushionArg = "INTEGER" := by
  cases values with
  | nil => exact absurd rfl hne
  | cons v vs =>
      unfold infer_sql_type
      rw [List.foldl_cons, inferStep_intLike _ _ (hall v (List.mem_cons_self v vs)),
        foldl_intLike vs (fun w hw => hall w (List.mem_cons_of_mem v hw))]
      rfl

/-- C7 witness: the theorem applied to a mixed native/string integer
column under nerd sizing. -/
theorem c7_witness :
    infer_sql_type [JVal.jint 7, JVal.jstr " -42 "] true "7" = "INTEGER" :=
  c7_int_like_integer [JVal.jint 7, JVal.jstr " -42 "] true "7" (List.cons_ne_nil _ _)
    (by decide)

theorem inferStep_plainStr (st : InferState) (v : JVal) (h : plainStrVal v = true) :
    inferStep st v = noteStr st (trimLenOf v) := by
  cases v with
  | jstr s =>
      simp only [plainStrVal, Bool.and_eq_true, Bool.not_eq_true'] at h
      obtain ⟨⟨⟨⟨h1, h2⟩, h3⟩, h4⟩, h5⟩ := h
      simp [inferStep, trimLenOf, h1, h2, h3, h4, h5]
  | null => simp [plainStrVal] at h
  | jbool b => simp [plainStrVal] at h
  | jint n => simp [plainStrVal] at h
  | jfloat p sc => simp [plainStrVal] at h
  | jarr xs => simp [plainStrVal] at h
  | jobj fs => simp [plainStrVal] at h

theorem noteStr_initState (L : Nat) :
    noteStr initState L = strOnlyState L := by
  simp [noteStr, initState, strOnlyState]

theorem noteStr_fixed (L : Nat) :
    noteStr (strOnlyState L) L = strOnlyState L := by
  simp [noteStr, strOnlyState]

theorem foldl_plainStr (vs : List JVal) (L : Nat)
    (hall : ∀ v ∈ vs, plainStrVal v = true ∧ trimLenOf v = L) :
    vs.foldl inferStep (strOnlyState L) = strOnlyState L := by
  induction vs with
  | nil => rfl
  | cons v vs ih =>
      obtain ⟨hp, hl⟩ := hall v (List.mem_cons_self v vs)
      rw [List.foldl_cons, inferStep_plainStr _ _ hp, hl, noteStr_fixed]
      exact ih (fun w hw => hall w (List.mem_cons_of_mem v hw))

theorem varcharLen_fixed (L : Nat) (hL : 1 ≤ L) (cushionArg : String) :
    varcharLen (strOnlyState L) true cushionArg = blockRound (L : Int) := by
  simp [varcharLen, strOnlyState, Nat.max_eq_right hL]

theorem inferResolve_strOnly (L : Nat) (nerd : Bool) (cushionArg : String) :
    inferResolve (strOnlyState L) nerd cushionArg =
      "VARCHAR(" ++ toString (varcharLen (strOnlyState L) nerd cushionArg) ++ ")" := rfl

/-- C4 as amended: for a non-empty column whose values are all
plain-string-classified with one shared trimmed length `L`, nerd sizing
forces the cushion to 0 as claimed, but the result is `VARCHAR` of `L`
rounded up to the power-of-two block granularity (`blockRound`), which
equals `L` only when `L` is already a multiple of its block size. -/
theorem c4_fixed_width_nerd_sizing (values : List JVal) (L : Nat) (cushionArg : String)
    (hne : values ≠ [])
    (hall : ∀ v ∈ values, plainStrVal v = true ∧ trimLenOf v = L) :
    infer_sql_type values true cushionArg =
      "VARCHAR(" ++ toString (blockRound (L : Int)) ++ ")" := by
  have hL : 1 ≤ L := by
    cases values with
    | nil => exact absurd rfl hne
    | cons v vs =>
        obtain ⟨hp, hl⟩ := hall v (List.mem_cons_self v vs)
        cases v with
        | jstr s =>
            simp only [plainStrVal, Bool.and_eq_true, Bool.not_eq_true'] at hp
            have hne2 : (pyStrip s).data ≠ [] := by
              intro hh
              simp [hh] at hp
            have := List.length_pos.mpr hne2
            simp only [trimLenOf] at hl
            have hlen : (pyStrip s).length = (pyStrip s).data.length := rfl
            omega
        | null => simp [plainStrVal] at hp
        | jbool b => simp [plainStrVal] at hp
        | jint n => simp [plainStrVal] at hp
        | jfloat p sc => simp [plainStrVal] at hp
        | jarr xs => simp [plainStrVal] at hp
        | jobj fs => simp [plainStrVal] at hp
  cases values with
  | nil => exact absurd rfl hne
  | cons v vs =>
      obtain ⟨hp, hl⟩ := hall v (List.mem_cons_self v vs)
      unfold infer_sql_type
      rw [List.foldl_cons, inferStep_plainStr _ _ hp, hl, noteStr_initState,
        foldl_plainStr vs L (fun w hw => hall w (List.mem_cons_of_mem v hw)),
        inferResolve_strOnly, varcharLen_fixed L hL cushionArg]

/-- C4 witness: the theorem applied to two strings of shared trimmed
length 5 with the default percentage cushion. -/
theorem c4_witness :
    infer_sql_type [JVal.jstr "abcde", JVal.jstr " vwxyz "] true "10%" =
      "VARCHAR(" ++ toString (blockRound ((5 : Nat) : Int)) ++ ")" :=
  c4_fixed_width_nerd_sizing [JVal.jstr "abcde", JVal.jstr " vwxyz "] 5 "10%"
    (List.cons_ne_nil _ _) (by decide)

theorem pyGet_pySet (r : Record) (k : String) (v : JVal) :
    pyGet (pySet r k v) k = some v := by
  induction r with
  | nil => simp [pySet, pyGet, lookupVals]
  | cons kv rest ih =>
      by_cases h : kv.fst == k
      · simp [pySet, pyGet, lookupVals, h]
      · simp only [pySet, h, if_neg, Bool.not_eq_true]
        simp only [pyGet, lookupVals] at ih ⊢
        simp [h, ih]

theorem makePrimRecords_spec (records : List Record) (field fkCol : String) :
    ∀ l, makePrimRecords records field fkCol = Except.ok l →
      l = primRecordsSpec records field fkCol := by
  induction records with
  | nil =>
      intro l h
      simp only [makePrimRecords] at h
      cases h
      rfl
  | cons r rs ih =>
      intro l h
      simp only [makePrimRecords] at h
      cases h1 : pyIter ((pyGet r field).getD (JVal.jarr [])) with
      | error e => rw [h1] at h; cases h
      | ok elems =>
          rw [h1] at h
          cases h2 : makePrimRecords rs field fkCol with
          | error e => rw [h2] at h; cases h
          | ok rest =>
              rw [h2] at h
              cases h
              have hrow : rowPrimElems r field = elems := by
                simp [rowPrimElems, h1]
              simp only [primRecordsSpec, hrow]
              rw [ih rest h2]

/-- C6: in any non-empty batch, every child of a nested-object bucket
receives the same injected foreign-key value — the `ID` value of the
first parent record (the primary-key source field under the default
configuration) — whereas the nested-primitive child batch is exactly
`primRecordsSpec`: in source-row order, each row contributes one record
per element of its own field, carrying the foreign key taken from that
row's own `ID`. -/
theorem c6_fk_value_propagation (records children : List Record) (fkCol field : String)
    (r0 : Record) (h0 : records.head? = some r0) :
    (∀ c ∈ injectFk children fkCol (firstParentId records),
        pyGet c fkCol = some ((pyGet r0 "ID").getD JVal.null)) ∧
    (∀ l, makePrimRecords records field fkCol = Except.ok l →
        l = primRecordsSpec records field fkCol) := by
  constructor
  · intro c hc
    have hfp : firstParentId records = (pyGet r0 "ID").getD JVal.null := by
      cases records with
      | nil => cases h0
      | cons r rs =>
          simp only [List.head?] at h0
          cases h0
          rfl
    rcases List.mem_map.mp hc with ⟨c0, hc0, hc1⟩
    rw [← hc1, hfp]
    exact pyGet_pySet c0 fkCol _
  · exact makePrimRecords_spec records field fkCol

/-- C6 witness: both halves of the theorem applied to a concrete parent
batch — the injected value of an object-array child is the first parent
record's `ID`, and the synthesized primitive child batch for `tags` is
exactly the per-row spec list (here the one record carrying row one's
`ID` 1 and value 9). -/
theorem c6_witness :
    (pyGet (pySet [("sku", JVal.jstr "A")] "users_id" (firstParentId c6Records)) "users_id" =
      some ((pyGet [("ID", JVal.jint 1), ("tags", JVal.jarr [JVal.jint 9])] "ID").getD JVal.null)) ∧
    ([[("users_id", JVal.jint 1), ("value", JVal.jint 9)]] =
      primRecordsSpec c6Records "tags" "users_id") :=
  ⟨(c6_fk_value_propagation c6Records [[("sku", JVal.jstr "A")]] "users_id" "tags"
      [("ID", JVal.jint 1), ("tags", JVal.jarr [JVal.jint 9])] rfl).1
    _ (List.mem_singleton_self _),
   (c6_fk_value_propagation c6Records [[("sku", JVal.jstr "A")]] "users_id" "tags"
      [("ID", JVal.jint 1), ("tags", JVal.jarr [JVal.jint 9])] rfl).2
    [[("users_id", JVal.jint 1), ("value", JVal.jint 9)]] rfl⟩

end Json2Ddl

namespace Json2Ddl

theorem pkDefsOf_kind (records : List Record) (cfg : Config) :
    ∀ d ∈ pkDefsOf records cfg, d.kind = ColKind.pk := by
  intro d hd
  simp only [pkDefsOf] at hd
  cases hlv : lookupVals (colsOf records) (pkColOf cfg) with
  | none => rw [hlv] at hd; simp at hd
  | some vals =>
      rw [hlv] at hd
      simp at hd
      subst hd
      rfl

theorem pkDefsOf_len (records : List Record) (cfg : Config) :
    (pkDefsOf records cfg).length ≤ 1 := by
  simp only [pkDefsOf]
  cases hlv : lookupVals (colsOf records) (pkColOf cfg) <;> simp [hlv]

theorem fkDefsOf_kind (parentFk : Option (String × String)) (cfg : Config)
    (l : List ColDef) (h : fkDefsOf parentFk cfg = Except.ok l) :
    ∀ d ∈ l, d.kind = ColKind.fk := by
  intro d hd
  cases parentFk with
  | none =>
      simp only [fkDefsOf] at h
      cases h
      simp at hd
  | some fk =>
      cases hrm : cfg.renameMap with
      | none => rw [fkDefsOf, hrm] at h; exact Except.noConfusion h
      | some m =>
          rw [fkDefsOf, hrm] at h
          cases h
          simp at hd
          subst hd
          rfl

theorem fkDefsOf_len (parentFk : Option (String × String)) (cfg : Config)
    (l : List ColDef) (h : fkDefsOf parentFk cfg = Except.ok l) :
    l.length ≤ 1 := by
  cases parentFk with
  | none =>
      simp only [fkDefsOf] at h
      cases h
      simp
  | some fk =>
      cases hrm : cfg.renameMap with
      | none => rw [fkDefsOf, hrm] at h; exact Except.noConfusion h
      | some m =>
          rw [fkDefsOf, hrm] at h
          cases h
          simp

theorem mem_foldl_append {α β : Type} (g : β → List α) (bs : List β) (acc : List α)
    (x : α) (hx : x ∈ bs.foldl (fun a b => a ++ g b) acc) :
    x ∈ acc ∨ ∃ b ∈ bs, x ∈ g b := by
  induction bs generalizing acc with
  | nil => exact Or.inl hx
  | cons b bs ih =>
      rcases ih (acc ++ g b) hx with h | ⟨b2, hb2, hxb⟩
      · rcases List.mem_append.mp h with h1 | h1
        · exact Or.inl h1
        · exact Or.inr ⟨b, List.mem_cons_self b bs, h1⟩
      · exact Or.inr ⟨b2, List.mem_cons_of_mem b hb2, hxb⟩

theorem otherDefsOf_plain (records : List Record) (parentFk : Option (String × String))
    (cfg : Config) (d : ColDef) (hd : d ∈ otherDefsOf records parentFk cfg) :
    d.kind = ColKind.plain := by
  unfold otherDefsOf at hd
  rcases mem_foldl_append _ _ _ _ hd with h | ⟨base, _, hdb⟩
  · simp at h
  · rcases List.mem_filterMap.mp hdb with ⟨c, _, hc⟩
    by_cases hs : isSkipped cfg parentFk c
    · simp [hs] at hc
    · simp only [hs, if_neg, Bool.not_eq_true, if_false] at hc
      cases hc
      rfl

theorem selectedOthersOf_plain (records : List Record) (parentFk : Option (String × String))
    (cfg : Config) (d : ColDef) (hd : d ∈ selectedOthersOf records parentFk cfg) :
    d.kind = ColKind.plain := by
  unfold selectedOthersOf at hd
  by_cases hs : cfg.sort
  · rw [if_pos hs] at hd
    exact otherDefsOf_plain records parentFk cfg d hd
  · rw [if_neg hs] at hd
    rcases List.mem_filterMap.mp hd with ⟨c, _, hc⟩
    by_cases hsk : isSkipped cfg parentFk (if cfg.pascal then to_pascal c else c)
    · simp [hsk] at hc
    · simp only [hsk, if_neg, Bool.not_eq_true, if_false] at hc
      exact otherDefsOf_plain records parentFk cfg d (List.mem_of_find?_eq_some hc)

theorem c8_core (P F S : List ColDef)
    (hPk : ∀ d ∈ P, d.kind = ColKind.pk) (hPl : P.length ≤ 1)
    (hFk : ∀ d ∈ F, d.kind = ColKind.fk) (hFl : F.length ≤ 1)
    (hS : ∀ d ∈ S, d.kind = ColKind.plain) :
    ((P ++ F ++ S).countP (fun d => d.kind == ColKind.pk) ≤ 1) ∧
    ((P ++ F ++ S).countP (fun d => d.kind == ColKind.fk) ≤ 1) ∧
    (∀ i d0, (P ++ F ++ S).get? i = some d0 → d0.kind = ColKind.pk → i = 0) ∧
    (∀ i d0, (P ++ F ++ S).get? i = some d0 → d0.kind = ColKind.fk →
        i = if (P ++ F ++ S).any (fun e => e.kind == ColKind.pk) then 1 else 0) := by
  have hScpk : S.countP (fun d => d.kind == ColKind.pk) = 0 :=
    List.countP_eq_zero.mpr (fun d hd => by simp [hS d hd])
  have hScfk : S.countP (fun d => d.kind == ColKind.fk) = 0 :=
    List.countP_eq_zero.mpr (fun d hd => by simp [hS d hd])
  have hSany : S.any (fun e => e.kind == ColKind.pk) = false := by
    rw [List.any_eq_false]
    intro d hd
    simp [hS d hd]
  have hSnotpk : ∀ d0 ∈ S, d0.kind = ColKind.pk → False := by
    intro d0 hm hk
    rw [hS d0 hm] at hk
    exact absurd hk (by decide)
  have hSnotfk : ∀ d0 ∈ S, d0.kind = ColKind.fk → False := by
    intro d0 hm hk
    rw [hS d0 hm] at hk
    exact absurd hk (by decide)
  have hPcases : P = [] ∨ ∃ p, P = [p] := by
    cases P with
    | nil => exact Or.inl rfl
    | cons p P2 =>
        cases P2 with
        | nil => exact Or.inr ⟨p, rfl⟩
        | cons q P3 => simp at hPl
  have hFcases : F = [] ∨ ∃ f, F = [f] := by
    cases F with
    | nil => exact Or.inl rfl
    | cons f F2 =>
        cases F2 with
        | nil => exact Or.inr ⟨f, rfl⟩
        | cons g F3 => simp at hFl
  rcases hPcases with hP | ⟨p, hP⟩ <;> rcases hFcases with hF | ⟨f, hF⟩ <;> subst hP <;> subst hF
  · -- defs = S
    refine ⟨?_, ?_, ?_, ?_⟩
    · show S.countP (fun d => d.kind == ColKind.pk) ≤ 1
      omega
    · show S.countP (fun d => d.kind == ColKind.fk) ≤ 1
      omega
    · intro i d0 hi hk
      replace hi : S.get? i = some d0 := hi
      exact absurd hk (by intro hk2; exact hSnotpk d0 (List.get?_mem hi) hk2)
    · intro i d0 hi hk
      replace hi : S.get? i = some d0 := hi
      exact absurd hk (by intro hk2; exact hSnotfk d0 (List.get?_mem hi) hk2)
  · -- defs = f :: S
    have hf : f.kind = ColKind.fk := hFk f (List.mem_singleton_self f)
    have hany : (f :: S).any (fun e => e.kind == ColKind.pk) = false := by
      simp [List.any_cons, hf, hSany]
    refine ⟨?_, ?_, ?_, ?_⟩
    · show (f :: S).countP (fun d => d.kind == ColKind.pk) ≤ 1
      simp [List.countP_cons, hScpk, hf]
    · show (f :: S).countP (fun d => d.kind == ColKind.fk) ≤ 1
      simp [List.countP_cons, hScfk, hf]
    · intro i d0 hi hk
      replace hi : (f :: S).get? i = some d0 := hi
      cases i with
      | zero => rfl
      | succ n =>
          rw [List.get?_cons_succ] at hi
          exact absurd hk (by intro hk2; exact hSnotpk d0 (List.get?_mem hi) hk2)
    · intro i d0 hi hk
      replace hi : (f :: S).get? i = some d0 := hi
      show i = if (f :: S).any (fun e => e.kind == ColKind.pk) then 1 else 0
      rw [hany]
      cases i with
      | zero => rfl
      | succ n =>
          rw [List.get?_cons_succ] at hi
          exact absurd hk (by intro hk2; exact hSnotfk d0 (List.get?_mem hi) hk2)
  · -- defs = p :: S
    have hp : p.kind = ColKind.pk := hPk p (List.mem_singleton_self p)
    refine ⟨?_, ?_, ?_, ?_⟩
    · show (p :: S).countP (fun d => d.kind == ColKind.pk) ≤ 1
      simp [List.countP_cons, hScpk, hp]
    · show (p :: S).countP (fun d => d.kind == ColKind.fk) ≤ 1
      simp [List.countP_cons, hScfk, hp]
    · intro i d0 hi hk
      replace hi : (p :: S).get? i = some d0 := hi
      cases i with
      | zero => rfl
      | succ n =>
          rw [List.get?_cons_succ] at hi
          exact absurd hk (by intro hk2; exact hSnotpk d0 (List.get?_mem hi) hk2)
    · intro i d0 hi hk
      replace hi : (p :: S).get? i = some d0 := hi
      cases i with
      | zero =>
          rw [List.get?_cons_zero] at hi
          cases hi
          rw [hp] at hk
          exact absurd hk (by decide)
      | succ n =>
          rw [List.get?_cons_succ] at hi
          exact absurd hk (by intro hk2; exact hSnotfk d0 (List.get?_mem hi) hk2)
  · -- defs = p :: f :: S
    have hp : p.kind = ColKind.pk := hPk p (List.mem_singleton_self p)
    have hf : f.kind = ColKind.fk := hFk f (List.mem_singleton_self f)
    have hany : (p :: f :: S).any (fun e => e.kind == ColKind.pk) = true := by
      simp [List.any_cons, hp]
    refine ⟨?_, ?_, ?_, ?_⟩
    · show (p :: f :: S).countP (fun d => d.kind == ColKind.pk) ≤ 1
      simp [List.countP_cons, hScpk, hp, hf]
    · show (p :: f :: S).countP (fun d => d.kind == ColKind.fk) ≤ 1
      simp [List.countP_cons, hScfk, hp, hf]
    · intro i d0 hi hk
      replace hi : (p :: f :: S).get? i = some d0 := hi
      cases i with
      | zero => rfl
      | succ n =>
          rw [List.get?_cons_succ] at hi
          cases n with
          | zero =>
              rw [List.get?_cons_zero] at hi
              cases hi
              rw [hf] at hk
              exact absurd hk (by decide)
          | succ m =>
              rw [List.get?_cons_succ] at hi
              exact absurd hk (by intro hk2; exact hSnotpk d0 (List.get?_mem hi) hk2)
    · intro i d0 hi hk
      replace hi : (p :: f :: S).get? i = some d0 := hi
      show i = if (p :: f :: S).any (fun e => e.kind == ColKind.pk) then 1 else 0
      rw [hany]
      cases i with
      | zero =>
          rw [List.get?_cons_zero] at hi
          cases hi
          rw [hp] at hk
          exact absurd hk (by decide)
      | succ n =>
          rw [List.get?_cons_succ] at hi
          cases n with
          | zero => rfl
          | succ m =>
              rw [List.get?_cons_succ] at hi
              exact absurd hk (by intro hk2; exact hSnotfk d0 (List.get?_mem hi) hk2)

/-- C8: for every definition list a `process_table` invocation builds,
at most one definition is marked `PRIMARY KEY` and, when present, it is
the first entry; at most one definition is the inherited foreign key
and, when present, it sits immediately after the primary key (first when
no primary key exists). -/
theorem c8_key_positions (records : List Record) (parentFk : Option (String × String))
    (cfg : Config) (defs : List ColDef)
    (h : buildColDefs records parentFk cfg = Except.ok defs) :
    (defs.countP (fun d => d.kind == ColKind.pk) ≤ 1) ∧
    (defs.countP (fun d => d.kind == ColKind.fk) ≤ 1) ∧
    (∀ i d0, defs.get? i = some d0 → d0.kind = ColKind.pk → i = 0) ∧
    (∀ i d0, defs.get? i = some d0 → d0.kind = ColKind.fk →
        i = if defs.any (fun e => e.kind == ColKind.pk) then 1 else 0) := by
  unfold buildColDefs at h
  cases hfk : fkDefsOf parentFk cfg with
  | error e => rw [hfk] at h; exact Except.noConfusion h
  | ok fkDefs =>
      rw [hfk] at h
      cases h
      exact c8_core _ _ _ (pkDefsOf_kind records cfg) (pkDefsOf_len records cfg)
        (fkDefsOf_kind parentFk cfg fkDefs hfk) (fkDefsOf_len parentFk cfg fkDefs hfk)
        (fun d hd => selectedOthersOf_plain records parentFk cfg d hd)

/-- C8 witness: the theorem applied to a batch with a primary key and an
inherited foreign key, extracting the count bounds on the concrete
definition list. -/
theorem c8_witness :
    (buildColDefs c5Records (some ("p_id", "INTEGER")) emptyMapCfg = Except.ok c8WitnessDefs) ∧
    (c8WitnessDefs.countP (fun d => d.kind == ColKind.pk) ≤ 1) ∧
    (c8WitnessDefs.countP (fun d => d.kind == ColKind.fk) ≤ 1) :=
  ⟨rfl,
   (c8_key_positions c5Records (some ("p_id", "INTEGER")) emptyMapCfg c8WitnessDefs rfl).1,
   (c8_key_positions c5Records (some ("p_id", "INTEGER")) emptyMapCfg c8WitnessDefs rfl).2.1⟩

theorem lookupVals_adjoin {α : Type} (m : List (String × List α)) (k f : String)
    (vs : List α) (hkf : (k == f) = false) :
    lookupVals (adjoin m k vs) f = lookupVals m f := by
  induction m with
  | nil => simp [adjoin, lookupVals, hkf]
  | cons kv rest ih =>
      by_cases h : kv.fst == k
      · have hk : kv.fst = k := by simpa using h
        by_cases hb : kv.fst == f
        · have : k = f := by rw [← hk]; simpa using hb
          rw [this] at hkf
          simp at hkf
        · simp [adjoin, lookupVals, h, hb]
      · simp only [adjoin, h, if_neg, Bool.not_eq_true, if_false]
        by_cases hb : kv.fst == f
        · simp [lookupVals, hb]
        · simp [lookupVals, hb, ih]

theorem lookupVals_isSome_of_mem {α : Type} (m : List (String × α)) (kv : String × α)
    (hm : kv ∈ m) : lookupVals m kv.fst ≠ none := by
  induction m with
  | nil => simp at hm
  | cons kv2 rest ih =>
      by_cases h : kv2.fst == kv.fst
      · simp [lookupVals, h]
      · rcases List.mem_cons.mp hm with he | hr
        · rw [he] at h; simp at h
        · simp [lookupVals, h, ih hr]

theorem routeField_cols_none (p : Partition) (key : String) (value : JVal) (f : String)
    (hkv : (key == f) = false ∨ nullOrBlank value = true)
    (hp : lookupVals p.cols f = none) :
    lookupVals (routeField p key value).cols f = none := by
  have hadj : ∀ (m : List (String × List JVal)) (vs : List JVal),
      lookupVals m f = none → (key == f) = false →
      lookupVals (adjoin m key vs) f = none := by
    intro m vs hm hk
    rw [lookupVals_adjoin m key f vs hk]
    exact hm
  cases value with
  | jstr s =>
      by_cases he : (pyStrip s).data.isEmpty
      · simpa [routeField, he] using hp
      · have hk : (key == f) = false := by
          rcases hkv with h | h
          · exact h
          · simp only [nullOrBlank] at h
            exact absurd h (by simpa using he)
        simp only [routeField, he, Bool.false_eq_true, if_false]
        exact hadj _ _ hp hk
  | null => simpa [routeField] using hp
  | jarr xs =>
      have hk : (key == f) = false := by
        rcases hkv with h | h
        · exact h
        · simp [nullOrBlank] at h
      by_cases h1 : (!xs.isEmpty && xs.all isObj) = true
      · simpa [routeField, h1] using hp
      · by_cases h2 : (!xs.isEmpty && xs.all (fun x => !isObj x)) = true
        · simpa [routeField, h1, h2] using hp
        · simp only [routeField, h1, h2, Bool.false_eq_true, if_false]
          exact hadj _ _ hp hk
  | jbool b =>
      have hk : (key == f) = false := by
        rcases hkv with h | h
        · exact h
        · simp [nullOrBlank] at h
      exact hadj _ _ hp hk
  | jint n =>
      have hk : (key == f) = false := by
        rcases hkv with h | h
        · exact h
        · simp [nullOrBlank] at h
      exact hadj _ _ hp hk
  | jfloat pr sc =>
      have hk : (key == f) = false := by
        rcases hkv with h | h
        · exact h
        · simp [nullOrBlank] at h
      exact hadj _ _ hp hk
  | jobj fs =>
      have hk : (key == f) = false := by
        rcases hkv with h | h
        · exact h
        · simp [nullOrBlank] at h
      exact hadj _ _ hp hk

theorem record_fold_cols_none (r : Record) (p : Partition) (f : String)
    (hr : r.all (fun kv => kv.fst != f || nullOrBlank kv.snd) = true)
    (hp : lookupVals p.cols f = none) :
    lookupVals (r.foldl (fun p kv => routeField p kv.fst kv.snd) p).cols f = none := by
  induction r generalizing p with
  | nil => exact hp
  | cons kv r ih =>
      rw [List.all_cons, Bool.and_eq_true] at hr
      obtain ⟨h1, h2⟩ := hr
      rw [List.foldl_cons]
      apply ih _ h2
      apply routeField_cols_none p kv.fst kv.snd f _ hp
      rcases (Bool.or_eq_true _ _).mp h1 with h | h
      · left
        simpa [bne] using h
      · right
        exact h

theorem allNullOrBlank_cols_none (records : List Record) (f : String)
    (h : allNullOrBlank records f = true) :
    lookupVals (colsOf records) f = none := by
  suffices H : ∀ (rs : List Record) (p : Partition),
      rs.all (fun r => r.all (fun kv => kv.fst != f || nullOrBlank kv.snd)) = true →
      lookupVals p.cols f = none →
      lookupVals (rs.foldl (fun p r => r.foldl (fun p kv => routeField p kv.fst kv.snd) p) p).cols f = none by
    exact H records emptyPartition h rfl
  intro rs
  induction rs with
  | nil => intro p _ hp; exact hp
  | cons r rs ih =>
      intro p hall hp
      rw [List.all_cons, Bool.and_eq_true] at hall
      rw [List.foldl_cons]
      exact ih _ hall.2 (record_fold_cols_none r p f hall.1 hp)

theorem mem_adjoin_vals {α : Type} (g : List (String × List α)) (k : String) (vs : List α)
    (b : String) (x : α)
    (hx : x ∈ (lookupVals (adjoin g k vs) b).getD []) :
    x ∈ (lookupVals g b).getD [] ∨ x ∈ vs := by
  induction g with
  | nil =>
      simp only [adjoin, lookupVals] at hx
      by_cases hb : k == b
      · rw [if_pos hb] at hx
        simp at hx
        exact Or.inr hx
      · rw [if_neg hb] at hx
        simp at hx
  | cons kv rest ih =>
      by_cases h : kv.fst == k
      · simp only [adjoin, h, if_pos] at hx
        by_cases hb : kv.fst == b
        · simp only [lookupVals, hb, if_pos] at hx ⊢
          simp only [Option.getD_some] at hx ⊢
          exact List.mem_append.mp hx
        · simp only [lookupVals, hb, Bool.not_eq_true, if_neg, if_false] at hx ⊢
          exact Or.inl hx
      · simp only [adjoin, h, Bool.not_eq_true, if_neg, if_false] at hx
        by_cases hb : kv.fst == b
        · simp only [lookupVals, hb, if_pos] at hx ⊢
          exact Or.inl hx
        · simp only [lookupVals, hb, Bool.not_eq_true, if_neg, if_false] at hx ⊢
          exact ih hx

theorem groups_fold_mem (entries : List (String × List JVal))
    (g0 : List (String × List String)) (P : String → Prop)
    (hg0 : ∀ b c, c ∈ (lookupVals g0 b).getD [] → P c)
    (hent : ∀ kv ∈ entries, P kv.fst) :
    ∀ b c,
      c ∈ (lookupVals
        (entries.foldl (fun g ckv => adjoin g (dropTrailingDigits ckv.fst) [ckv.fst]) g0)
        b).getD [] → P c := by
  induction entries generalizing g0 with
  | nil => exact hg0
  | cons kv rest ih =>
      rw [List.foldl_cons]
      apply ih
      · intro b c hc
        rcases mem_adjoin_vals g0 (dropTrailingDigits kv.fst) [kv.fst] b c hc with h | h
        · exact hg0 b c h
        · rw [List.mem_singleton.mp h]
          exact hent kv (List.mem_cons_self kv rest)
      · intro kv2 hkv2
        exact hent kv2 (List.mem_cons_of_mem kv hkv2)

theorem mem_group_key (records : List Record) (b c : String)
    (hc : c ∈ (lookupVals (groupsOf records) b).getD []) :
    lookupVals (colsOf records) c ≠ none := by
  have := groups_fold_mem (colsOf records) [] (fun c => lookupVals (colsOf records) c ≠ none)
    (by intro b2 c2 hc2; simp [lookupVals] at hc2)
    (by intro kv hkv; exact lookupVals_isSome_of_mem (colsOf records) kv hkv)
  exact this b c hc

theorem mem_insertLe {α : Type} (le : α → α → Bool) (x : α) (l : List α) (y : α)
    (hy : y ∈ insertLe le x l) : y = x ∨ y ∈ l := by
  induction l with
  | nil =>
      simp [insertLe] at hy
      exact Or.inl hy
  | cons z zs ih =>
      by_cases h : le z x
      · simp only [insertLe, h, if_pos] at hy
        rcases List.mem_cons.mp hy with he | hr
        · exact Or.inr (by rw [he]; exact List.mem_cons_self z zs)
        · rcases ih hr with h2 | h2
          · exact Or.inl h2
          · exact Or.inr (List.mem_cons_of_mem z h2)
      · simp only [insertLe, h, Bool.not_eq_true, if_neg, if_false] at hy
        rcases List.mem_cons.mp hy with he | hr
        · exact Or.inl he
        · exact Or.inr hr

theorem mem_foldl_insertLe {α : Type} (le : α → α → Bool) (y : α) :
    ∀ (l acc : List α), y ∈ l.foldl (fun acc x => insertLe le x acc) acc →
      y ∈ acc ∨ y ∈ l := by
  intro l
  induction l with
  | nil => intro acc h; exact Or.inl h
  | cons x xs ih =>
      intro acc h
      rw [List.foldl_cons] at h
      rcases ih (insertLe le x acc) h with h2 | h2
      · rcases mem_insertLe le x acc y h2 with h3 | h3
        · exact Or.inr (by rw [h3]; exact List.mem_cons_self x xs)
        · exact Or.inl h3
      · exact Or.inr (List.mem_cons_of_mem x h2)

theorem mem_stableSortLe {α : Type} (le : α → α → Bool) (l : List α) (y : α)
    (hy : y ∈ stableSortLe le l) : y ∈ l := by
  rcases mem_foldl_insertLe le y l [] hy with h | h
  · simp at h
  · exact h

theorem otherDefsOf_src (records : List Record) (parentFk : Option (String × String))
    (cfg : Config) (d : ColDef) (hd : d ∈ otherDefsOf records parentFk cfg) :
    lookupVals (colsOf records) d.srcName ≠ none := by
  unfold otherDefsOf at hd
  rcases mem_foldl_append _ _ _ _ hd with h | ⟨base, _, hdb⟩
  · simp at h
  · rcases List.mem_filterMap.mp hdb with ⟨c, hcmem, hc⟩
    by_cases hs : isSkipped cfg parentFk c
    · simp [hs] at hc
    · simp only [hs, Bool.not_eq_true, if_neg, if_false] at hc
      cases hc
      have hcg := mem_stableSortLe strLe _ c hcmem
      exact mem_group_key records base c hcg

theorem selectedOthersOf_src (records : List Record) (parentFk : Option (String × String))
    (cfg : Config) (d : ColDef) (hd : d ∈ selectedOthersOf records parentFk cfg) :
    lookupVals (colsOf records) d.srcName ≠ none := by
  unfold selectedOthersOf at hd
  by_cases hs : cfg.sort
  · rw [if_pos hs] at hd
    exact otherDefsOf_src records parentFk cfg d hd
  · rw [if_neg hs] at hd
    rcases List.mem_filterMap.mp hd with ⟨c, _, hc⟩
    by_cases hsk : isSkipped cfg parentFk (if cfg.pascal then to_pascal c else c)
    · simp [hsk] at hc
    · simp only [hsk, Bool.not_eq_true, if_neg, if_false] at hc
      exact otherDefsOf_src records parentFk cfg d (List.mem_of_find?_eq_some hc)

/-- C10 as amended: a field whose every occurrence in the batch is
`Null` or an empty/whitespace-only string never becomes a scalar column:
every definition the invocation emits either is the inherited
foreign-key definition (emitted unconditionally, which can coincide with
such a field's name in a recursion target) or stems from a different
source column. -/
theorem c10_no_scalar_defs_for_null_blank_fields (records : List Record)
    (parentFk : Option (String × String)) (cfg : Config) (f : String) (defs : List ColDef)
    (hnull : allNullOrBlank records f = true)
    (h : buildColDefs records parentFk cfg = Except.ok defs) :
    ∀ d ∈ defs, d.kind = ColKind.fk ∨ d.srcName ≠ f := by
  have hno : lookupVals (colsOf records) f = none := allNullOrBlank_cols_none records f hnull
  unfold buildColDefs at h
  cases hfk : fkDefsOf parentFk cfg with
  | error e => rw [hfk] at h; exact Except.noConfusion h
  | ok fkDefs =>
      rw [hfk] at h
      cases h
      intro d hd
      rcases List.mem_append.mp hd with hd1 | hdS
      · rcases List.mem_append.mp hd1 with hdP | hdF
        · -- primary-key definition: its source name has sampled values
          right
          simp only [pkDefsOf] at hdP
          cases hlv : lookupVals (colsOf records) (pkColOf cfg) with
          | none => rw [hlv] at hdP; simp at hdP
          | some vals =>
              rw [hlv] at hdP
              simp at hdP
              subst hdP
              intro hf
              simp only at hf
              rw [hf] at hlv
              rw [hno] at hlv
              exact Option.noConfusion hlv
        · exact Or.inl (fkDefsOf_kind parentFk cfg fkDefs hfk d hdF)
      · right
        intro hf
        apply selectedOthersOf_src records parentFk cfg d hdS
        rw [hf]
        exact hno

/-- C10 witness: the amended theorem applied to a batch whose `x` field
is `Null` in its only record, showing the surviving definition is not a
scalar definition for `x`. -/
theorem c10_witness :
    c10WitnessDef.kind = ColKind.fk ∨ c10WitnessDef.srcName ≠ "x" :=
  c10_no_scalar_defs_for_null_blank_fields [[("x", JVal.null), ("y", JVal.jint 1)]]
    none defaultCfg "x" [c10WitnessDef] rfl rfl c10WitnessDef (List.mem_singleton_self _)

end Json2Ddl
